import Mathlib

/-!
# The user store of gogo-garage-opener (`user_dao.go`)

`UserDao` wraps a `database/sql` handle on a SQLite file.  Every method runs one
SQL statement against the `user` table.  The table content is the whole state,
so the embedding passes it explicitly: a `Store` is the list of rows in rowid
(insertion) order, a query returns the list of selected tuples, and a mutating
statement returns either the new table or the error the driver reports.

Every method opens a transaction with `this.db.Begin()` but runs its statement
on `this.db` itself, outside that transaction, so the statement is applied (or
refused) on its own and the later `Commit` / `Rollback` of the empty
transaction has no effect on the table.  The functions below follow a refused
statement by leaving the table as it was.

The functions assume but do not require that the table satisfies the
constraints of its declaration (`PrimaryKey`, `UniqueTokens`); separate lemmas
show that the operations preserve them.
-/

namespace GarageOpener

/-! ## Data model -/

/-- Modelled from the spec: the declaration of the Go type `User` is not in the
source files.  `user_dao.go` reads the fields `Email`, `Password` and `Token`
(all Go strings) and builds values with `User{Email: .., Password: ..}`, which
leaves `Token` at its zero value. -/
structure User where
  Email : String
  Password : String
  Token : String
  deriving DecidableEq, Repr

/-- The Go zero value `User{}`, returned by `getUserFromRows` on a miss. -/
def User.zero : User := ⟨"", "", ""⟩

/-- SQL `lower(X)` as SQLite implements it: the ASCII letters `A`..`Z` are
mapped to `a`..`z`, every other character is kept. -/
def lower (s : String) : String := ⟨s.data.map Char.toLower⟩

/-- Modelled from the spec: the method `User.getEmail` is not in the source
files; the spec says that user creation "normalizes `email` to lowercase".  The
lowercase form is taken with `lower`, the function the queries apply to the
stored email. -/
def User.getEmail (user : User) : String := lower user.Email

/-- One row of the `user` table.  `token` and `subscribed` are nullable; the
columns `email` and `password` only ever receive Go strings. -/
structure Row where
  email : String
  password : String
  token : Option String
  subscribed : Option Int
  deriving DecidableEq, Repr

/-- The content of the `user` table, in rowid order. -/
abbrev Store := List Row

/-- The errors a statement on the `user` table can be refused with. -/
inductive SqlError where
  | primaryKeyViolation
  | uniqueViolation
  deriving DecidableEq, Repr

/-- Modelled from the spec: the value a new row gets in the column
`subscribed`, which the insert statement does not mention ("`subscribed`
(boolean, default false)"); the table declaration is not in the source
files. -/
def subscribedDefault : Option Int := some 0

/-- Modelled from the spec: the table declaration
`user(email PK, password_hash, token NULL UNIQUE, subscribed INT)` is not in the
source files.  This runs `insert into user(email, password) values (?, ?)`: the
statement is refused when a row with the same `email` exists (the primary key
compares with the default binary collation, byte for byte); otherwise the row
is appended with `token` null.  A null token never collides with the unique
constraint. -/
def execInsert (db : Store) (email password : String) : Except SqlError Store :=
  if db.any (fun r => decide (r.email = email)) then
    .error .primaryKeyViolation
  else
    .ok (db ++ [⟨email, password, none, subscribedDefault⟩])

/-- Modelled from the spec: the table declaration (see `execInsert`) is not in
the source files.  This runs `update user set token = ? where email = ?`: the
rows whose `email` equals the argument byte for byte (at most one, by the
primary key) get the new token; the statement is refused, and nothing is
written, when it would write a token that another row already holds. -/
def execUpdateToken (db : Store) (token email : String) : Except SqlError Store :=
  if db.any (fun r => decide (r.email = email)) &&
      db.any (fun r => decide (r.email ≠ email) && decide (r.token = some token)) then
    .error .uniqueViolation
  else
    .ok (db.map (fun r => if r.email = email then { r with token := some token } else r))

/-- Result set of `select lower(email), password from user where lower(email) = lower(?)`. -/
def queryByEmail (db : Store) (email : String) : List (String × String) :=
  (db.filter (fun r => decide (lower r.email = lower email))).map
    (fun r => (lower r.email, r.password))

/-- Result set of `select lower(email), password from user where token = ?`.
A null token is equal to nothing. -/
def queryByToken (db : Store) (token : String) : List (String × String) :=
  (db.filter (fun r => decide (r.token = some token))).map
    (fun r => (lower r.email, r.password))

/-- Result set of `select lower(email) from user where subscribed = 1`. -/
def querySubscribed (db : Store) : List String :=
  (db.filter (fun r => decide (r.subscribed = some 1))).map (fun r => lower r.email)

/-- Result set of `select 1 from user where token = ?`. -/
def queryTokenProbe (db : Store) (token : String) : List Nat :=
  (db.filter (fun r => decide (r.token = some token))).map (fun _ => 1)

/-! ## The methods of `UserDao` -/

/-- `getUserFromRows`: the first tuple of the result set as a `User`, or the
zero-valued `User{}` when the result set is empty. -/
def getUserFromRows (rows : List (String × String)) : User :=
  match rows with
  | (userEmail, password) :: _ => { Email := userEmail, Password := password, Token := "" }
  | [] => User.zero

/-- `UserDao.createUser`: inserts `(user.getEmail(), user.Password)`.  The
method returns nothing; the second component is the error it logs. -/
def createUser (db : Store) (user : User) : Store × Option SqlError :=
  match execInsert db user.getEmail user.Password with
  | .error err => (db, some err)
  | .ok db1 => (db1, none)

/-- `UserDao.getUserByEmail`. -/
def getUserByEmail (db : Store) (email : String) : User :=
  getUserFromRows (queryByEmail db email)

/-- `UserDao.getUserByToken`. -/
def getUserByToken (db : Store) (token : String) : User :=
  getUserFromRows (queryByToken db token)

/-- `UserDao.getSubscribedUserEmails`: appends every selected email to an
initially empty slice. -/
def getSubscribedUserEmails (db : Store) : List String :=
  (querySubscribed db).foldl (fun emails userEmail => emails ++ [userEmail]) []

/-- `UserDao.setToken`: updates with `(user.Token, user.Email)`.  The method
returns nothing; the second component is the error it logs. -/
def setToken (db : Store) (user : User) : Store × Option SqlError :=
  match execUpdateToken db user.Token user.Email with
  | .error err => (db, some err)
  | .ok db1 => (db1, none)

/-- `UserDao.tokenExists`: `rows.Next()` on the probe's result set. -/
def tokenExists (db : Store) (token : String) : Bool :=
  match queryTokenProbe db token with
  | _ :: _ => true
  | [] => false

/-! ## Constraints of the table and reachable states -/

/-- The primary key on `email`: no two rows carry the same email (compared byte
for byte). -/
def PrimaryKey (db : Store) : Prop :=
  db.Pairwise (fun r1 r2 => r1.email ≠ r2.email)

/-- The unique constraint on `token`: no two rows carry the same non-null
token. -/
def UniqueTokens (db : Store) : Prop :=
  db.Pairwise (fun r1 r2 => r1.token.isSome = true → r1.token ≠ r2.token)

instance (db : Store) : Decidable (PrimaryKey db) :=
  inferInstanceAs (Decidable (List.Pairwise _ db))

instance (db : Store) : Decidable (UniqueTokens db) :=
  inferInstanceAs (Decidable (List.Pairwise _ db))

/-- The states the table can take from the empty table through calls of
`createUser` (any argument) and of `setToken` (arguments satisfying `ok`). -/
inductive ReachableBy (ok : User → Prop) : Store → Prop where
  | empty : ReachableBy ok []
  | create (db : Store) (user : User) :
      ReachableBy ok db → ReachableBy ok (createUser db user).1
  | assign (db : Store) (user : User) :
      ok user → ReachableBy ok db → ReachableBy ok (setToken db user).1

/-- Reachable from the empty table by any sequence of `createUser` and
`setToken` calls. -/
def Reachable (db : Store) : Prop := ReachableBy (fun _ => True) db

/-! ## Lemmas on `lower` -/

theorem toNat_ofNat_of_lt (n : Nat) (h : n < 55296) : (Char.ofNat n).toNat = n := by
  have hv : n.isValidChar := Or.inl h
  simp only [Char.ofNat, hv, dite_true, Char.ofNatAux, Char.toNat]
  show (UInt32.ofNat' n _).toNat = n
  simp [UInt32.ofNat', UInt32.toNat]

theorem toLower_toLower (c : Char) : c.toLower.toLower = c.toLower := by
  by_cases h : 65 ≤ c.toNat ∧ c.toNat ≤ 90
  · have h1 : c.toLower = Char.ofNat (c.toNat + 32) := by
      simp [Char.toLower, h]
    have h2 : c.toLower.toNat = c.toNat + 32 := by
      rw [h1]; exact toNat_ofNat_of_lt _ (by omega)
    have h3 : ¬ (65 ≤ c.toLower.toNat ∧ c.toLower.toNat ≤ 90) := by omega
    generalize c.toLower = d at h3
    simp only [Char.toLower, ge_iff_le, h3, if_false]
  · simp only [Char.toLower, ge_iff_le, h, if_false]

theorem lower_lower (s : String) : lower (lower s) = lower s := by
  simp only [lower, List.map_map]
  congr 1
  apply List.map_congr_left
  intro c _
  exact toLower_toLower c

theorem lower_eq_empty (s : String) : lower s = "" ↔ s = "" := by
  constructor
  · intro h
    have h1 : (lower s).data = [] := by rw [h]
    have h2 : s.data = [] := by simpa [lower] using h1
    exact String.ext h2
  · rintro rfl; rfl

/-! ## Lemmas on the queries -/

theorem foldl_snoc (l acc : List String) :
    l.foldl (fun emails userEmail => emails ++ [userEmail]) acc = acc ++ l := by
  induction l generalizing acc with
  | nil => simp
  | cons x xs ih => simp [ih]

theorem tokenExists_iff (db : Store) (t : String) :
    tokenExists db t = true ↔ ∃ r ∈ db, r.token = some t := by
  induction db with
  | nil => simp [tokenExists, queryTokenProbe]
  | cons x xs ih =>
    by_cases hx : x.token = some t
    · simp [tokenExists, queryTokenProbe, hx]
    · have : tokenExists (x :: xs) t = tokenExists xs t := by
        simp [tokenExists, queryTokenProbe, hx]
      rw [this, ih]; simp [hx]

theorem tokenExists_false_iff (db : Store) (t : String) :
    tokenExists db t = false ↔ ∀ r ∈ db, r.token ≠ some t := by
  rw [← Bool.not_eq_true, tokenExists_iff]; simp

theorem queryByToken_nil_of_absent (db : Store) (t : String)
    (h : ∀ r ∈ db, r.token ≠ some t) : queryByToken db t = [] := by
  simp only [queryByToken, List.map_eq_nil_iff, List.filter_eq_nil_iff]
  intro r hr; simpa using h r hr

theorem getUserByToken_cons (x : Row) (xs : Store) (t : String) :
    getUserByToken (x :: xs) t
      = if x.token = some t then ⟨lower x.email, x.password, ""⟩ else getUserByToken xs t := by
  by_cases hx : x.token = some t
  · simp [getUserByToken, queryByToken, getUserFromRows, hx]
  · simp [getUserByToken, queryByToken, hx]

theorem getUserByToken_zero_of_absent (db : Store) (t : String)
    (h : ∀ r ∈ db, r.token ≠ some t) : getUserByToken db t = User.zero := by
  simp [getUserByToken, queryByToken_nil_of_absent db t h, getUserFromRows]

theorem createUser_ok (db : Store) (u : User) (h : ∀ r ∈ db, r.email ≠ lower u.Email) :
    createUser db u = (db ++ [⟨lower u.Email, u.Password, none, subscribedDefault⟩], none) := by
  have hany : db.any (fun r => decide (r.email = lower u.Email)) = false := by
    simpa [List.any_eq_false] using h
  simp [createUser, execInsert, User.getEmail, hany]

theorem createUser_refused (db : Store) (u : User) (r : Row) (hr : r ∈ db)
    (h : r.email = lower u.Email) :
    createUser db u = (db, some SqlError.primaryKeyViolation) := by
  have hany : db.any (fun r => decide (r.email = lower u.Email)) = true := by
    simp only [List.any_eq_true, decide_eq_true_eq]
    exact ⟨r, hr, h⟩
  simp [createUser, execInsert, User.getEmail, hany]

/-! ## The operations preserve the constraints of the table -/

theorem createUser_cases (db : Store) (u : User) :
    createUser db u = (db, some SqlError.primaryKeyViolation) ∨
      ((∀ r ∈ db, r.email ≠ lower u.Email) ∧
        createUser db u
          = (db ++ [⟨lower u.Email, u.Password, none, subscribedDefault⟩], none)) := by
  by_cases h : ∃ r ∈ db, r.email = lower u.Email
  · obtain ⟨r, hr, he⟩ := h
    exact Or.inl (createUser_refused db u r hr he)
  · have h1 : ∀ r ∈ db, r.email ≠ lower u.Email := fun r hr he => h ⟨r, hr, he⟩
    exact Or.inr ⟨h1, createUser_ok db u h1⟩

theorem setToken_cases (db : Store) (u : User) :
    setToken db u = (db, some SqlError.uniqueViolation) ∨
      (((∀ r ∈ db, r.email ≠ u.Email) ∨
          (∀ r ∈ db, r.email ≠ u.Email → r.token ≠ some u.Token)) ∧
        setToken db u
          = (db.map (fun r => if r.email = u.Email then { r with token := some u.Token } else r),
              none)) := by
  unfold setToken execUpdateToken
  split_ifs with hc
  · exact Or.inl rfl
  · refine Or.inr ⟨?_, rfl⟩
    simp only [Bool.and_eq_true, List.any_eq_true, decide_eq_true_eq, not_and, not_exists] at hc
    by_cases hm : ∃ r ∈ db, r.email = u.Email
    · right
      obtain ⟨r0, hr0, he0⟩ := hm
      intro r hr hne htok
      have := hc ⟨r0, hr0, he0⟩ r hr
      simp [hne, htok] at this
    · left
      exact fun r hr he => hm ⟨r, hr, he⟩

theorem map_update_of_no_match (db : Store) (email token : String)
    (h : ∀ r ∈ db, r.email ≠ email) :
    db.map (fun r => if r.email = email then { r with token := some token } else r) = db := by
  conv_rhs => rw [← List.map_id db]
  apply List.map_congr_left
  intro r hr
  simp [h r hr]

theorem createUser_primaryKey (db : Store) (u : User) (h : PrimaryKey db) :
    PrimaryKey (createUser db u).1 := by
  rcases createUser_cases db u with hc | ⟨hfresh, hc⟩
  · rw [hc]; exact h
  · rw [hc]
    unfold PrimaryKey at h ⊢
    rw [List.pairwise_append]
    refine ⟨h, List.pairwise_singleton _ _, ?_⟩
    intro a ha b hb
    simp only [List.mem_singleton] at hb
    subst hb
    exact hfresh a ha

theorem createUser_uniqueTokens (db : Store) (u : User) (h : UniqueTokens db) :
    UniqueTokens (createUser db u).1 := by
  rcases createUser_cases db u with hc | ⟨_, hc⟩
  · rw [hc]; exact h
  · rw [hc]
    unfold UniqueTokens at h ⊢
    rw [List.pairwise_append]
    refine ⟨h, List.pairwise_singleton _ _, ?_⟩
    intro a _ b hb hs
    simp only [List.mem_singleton] at hb
    subst hb
    intro ht
    rw [ht] at hs
    simp at hs

theorem setToken_primaryKey (db : Store) (u : User) (h : PrimaryKey db) :
    PrimaryKey (setToken db u).1 := by
  rcases setToken_cases db u with hc | ⟨_, hc⟩
  · rw [hc]; exact h
  · rw [hc]
    unfold PrimaryKey at h ⊢
    rw [List.pairwise_map]
    refine h.imp ?_
    intro a b hab
    have hmail : ∀ r : Row,
        (if r.email = u.Email then { r with token := some u.Token } else r).email = r.email := by
      intro r; split_ifs <;> rfl
    rw [hmail a, hmail b]
    exact hab

theorem setToken_uniqueTokens (db : Store) (u : User) (hpk : PrimaryKey db)
    (h : UniqueTokens db) : UniqueTokens (setToken db u).1 := by
  rcases setToken_cases db u with hc | ⟨hfree, hc⟩
  · rw [hc]; exact h
  · rw [hc]
    rcases hfree with hno | hfree
    · rw [map_update_of_no_match db _ _ hno]; exact h
    · unfold PrimaryKey at hpk
      unfold UniqueTokens at h ⊢
      rw [List.pairwise_map]
      refine (hpk.and h).imp_of_mem ?_
      intro a b ha hb hab
      obtain ⟨hne, htok⟩ := hab
      by_cases hae : a.email = u.Email <;> by_cases hbe : b.email = u.Email
      · exact absurd (hae.trans hbe.symm) hne
      · simp only [hae, hbe, if_true, if_false]
        intro _ hh
        exact hfree b hb hbe hh.symm
      · simp only [hae, hbe, if_true, if_false]
        intro _ hh
        exact hfree a ha hae hh
      · simp only [hae, hbe, if_false]
        exact htok

theorem reachableBy_constraints (ok : User → Prop) (db : Store) (h : ReachableBy ok db) :
    PrimaryKey db ∧ UniqueTokens db := by
  induction h with
  | empty => exact ⟨List.Pairwise.nil, List.Pairwise.nil⟩
  | create db u _ ih => exact ⟨createUser_primaryKey db u ih.1, createUser_uniqueTokens db u ih.2⟩
  | assign db u _ _ ih =>
    exact ⟨setToken_primaryKey db u ih.1, setToken_uniqueTokens db u ih.1 ih.2⟩

theorem uniqueTokens_holders_le_one (db : Store) (t : String) (h : UniqueTokens db) :
    (db.filter (fun r => decide (r.token = some t))).length ≤ 1 := by
  induction db with
  | nil => simp
  | cons x xs ih =>
    unfold UniqueTokens at h
    rw [List.pairwise_cons] at h
    by_cases hx : x.token = some t
    · have hnil : xs.filter (fun r => decide (r.token = some t)) = [] := by
        simp only [List.filter_eq_nil_iff, decide_eq_true_eq]
        intro r hr hrt
        exact h.1 r hr (by simp [hx]) (hx.trans hrt.symm)
      simp [List.filter_cons, hx, hnil]
    · simp only [List.filter_cons, hx, decide_False, Bool.false_eq_true, if_false]
      exact ih h.2

theorem uniqueTokens_distinct (db : Store) (h : UniqueTokens db) (a b : Row)
    (ha : a ∈ db) (hb : b ∈ db) (hab : a ≠ b) (t : String) (hat : a.token = some t) :
    b.token ≠ some t := by
  have hs : db.Pairwise (fun r1 r2 => r1.token.isSome = true → r1.token ≠ r2.token) := h
  have hsym : Symmetric (fun r1 r2 : Row => ∀ t, r1.token = some t → r2.token ≠ some t) := by
    intro r1 r2 h12 t h2 h1
    exact h12 t h1 h2
  have hp : db.Pairwise (fun r1 r2 : Row => ∀ t, r1.token = some t → r2.token ≠ some t) := by
    refine hs.imp ?_
    intro r1 r2 hr t h1 h2
    exact hr (by simp [h1]) (h1.trans h2.symm)
  exact hp.forall hsym ha hb hab t hat

theorem mem_createUser (db : Store) (u : User) (r : Row) (hr : r ∈ (createUser db u).1) :
    r ∈ db ∨ r.token = none := by
  rcases createUser_cases db u with hc | ⟨_, hc⟩
  · rw [hc] at hr; exact Or.inl hr
  · rw [hc] at hr
    rcases List.mem_append.mp hr with h1 | h1
    · exact Or.inl h1
    · simp only [List.mem_singleton] at h1
      subst h1; exact Or.inr rfl

theorem mem_setToken (db : Store) (u : User) (r : Row) (hr : r ∈ (setToken db u).1) :
    r ∈ db ∨ r.token = some u.Token := by
  rcases setToken_cases db u with hc | ⟨_, hc⟩
  · rw [hc] at hr; exact Or.inl hr
  · rw [hc] at hr
    simp only [List.mem_map] at hr
    obtain ⟨a, ha, rfl⟩ := hr
    by_cases hae : a.email = u.Email
    · right; simp [hae]
    · left; simpa [hae] using ha

theorem holders_after_update (db : Store) (email t : String) (r : Row)
    (hpk : PrimaryKey db) (hr : r ∈ db) (he : r.email = email)
    (hfree : ∀ a ∈ db, a.email ≠ email → a.token ≠ some t) :
    (db.map (fun a => if a.email = email then { a with token := some t } else a)).filter
        (fun a => decide (a.token = some t))
      = [{ r with token := some t }] := by
  induction db with
  | nil => simp at hr
  | cons x xs ih =>
    unfold PrimaryKey at hpk
    rw [List.pairwise_cons] at hpk
    rcases List.mem_cons.mp hr with hx | hx
    · subst hx
      have htail : (xs.map (fun a => if a.email = email then { a with token := some t } else a)).filter
          (fun a => decide (a.token = some t)) = [] := by
        simp only [List.filter_eq_nil_iff, List.mem_map, decide_eq_true_eq]
        rintro b ⟨a, ha, rfl⟩
        have hne : a.email ≠ email := fun h => hpk.1 a ha (he.trans h.symm)
        simpa [hne] using hfree a (List.mem_cons_of_mem _ ha) hne
      simp only [List.map_cons, he, if_true, List.filter_cons, decide_True]
      simpa [he] using htail
    · have hne : x.email ≠ email := fun h => hpk.1 r hx (h.trans he.symm)
      have hxt : x.token ≠ some t := hfree x (List.mem_cons_self _ _) hne
      simp only [List.map_cons, hne, if_false, List.filter_cons, hxt, decide_False,
        Bool.false_eq_true]
      exact ih hpk.2 hx (fun a ha => hfree a (List.mem_cons_of_mem _ ha))

theorem reachableBy_stored_lower (ok : User → Prop) (db : Store) (h : ReachableBy ok db) :
    ∀ r ∈ db, r.email = lower r.email := by
  induction h with
  | empty => intro r hr; simp at hr
  | create db u _ ih =>
    intro r hr
    rcases createUser_cases db u with hc | ⟨_, hc⟩
    · rw [hc] at hr; exact ih r hr
    · rw [hc] at hr
      rcases List.mem_append.mp hr with h1 | h1
      · exact ih r h1
      · simp only [List.mem_singleton] at h1
        subst h1
        exact (lower_lower u.Email).symm
  | assign db u _ _ ih =>
    intro r hr
    rcases setToken_cases db u with hc | ⟨_, hc⟩
    · rw [hc] at hr; exact ih r hr
    · rw [hc] at hr
      simp only [List.mem_map] at hr
      obtain ⟨a, ha, rfl⟩ := hr
      by_cases hae : a.email = u.Email
      · simpa [hae] using ih a ha
      · simpa [hae] using ih a ha

theorem createUser_refused_of_stored_lower (db : Store) (u : User) (r : Row) (hr : r ∈ db)
    (hstored : r.email = lower r.email) (h : lower r.email = lower u.Email) :
    (createUser db u).1 = db ∧ (createUser db u).2 = some SqlError.primaryKeyViolation := by
  rw [createUser_refused db u r hr (hstored.trans h)]
  exact ⟨rfl, rfl⟩

/-! ## Theorems -/

/-- C3: email lookup ignores ASCII letter case: two arguments with the same
lowercase form give the same answer on every table, in particular `"A@B"` and
`"a@b"`. -/
theorem getUserByEmail_case_insensitive (db : Store) (a b : String)
    (h : lower a = lower b) :
    getUserByEmail db a = getUserByEmail db b ∧
      getUserByEmail db "A@B" = getUserByEmail db "a@b" := by
  constructor
  · simp only [getUserByEmail, queryByEmail, h]
  · have h2 : lower "A@B" = lower "a@b" := by decide
    simp only [getUserByEmail, queryByEmail, h2]

theorem getUserByEmail_case_insensitive_witness :
    lower "Door@Example.COM" = lower "door@example.com" ∧
      getUserByEmail [⟨"door@example.com", "pw", none, some 0⟩] "Door@Example.COM"
        = getUserByEmail [⟨"door@example.com", "pw", none, some 0⟩] "door@example.com" :=
  ⟨by decide, (getUserByEmail_case_insensitive _ _ _ (by decide)).1⟩

/-- C7: `getSubscribedUserEmails` returns the lowercased emails of the rows
with `subscribed = 1`, one entry per such row and in row order; every entry
comes from a subscribed row; the result is empty when no row is subscribed. -/
theorem getSubscribedUserEmails_spec (db : Store) :
    getSubscribedUserEmails db
        = (db.filter (fun r => decide (r.subscribed = some 1))).map (fun r => lower r.email) ∧
      (getSubscribedUserEmails db).length
        = db.countP (fun r => decide (r.subscribed = some 1)) ∧
      (∀ e ∈ getSubscribedUserEmails db, ∃ r ∈ db, r.subscribed = some 1 ∧ lower r.email = e) ∧
      ((∀ r ∈ db, r.subscribed ≠ some 1) → getSubscribedUserEmails db = []) := by
  have h0 : getSubscribedUserEmails db
      = (db.filter (fun r => decide (r.subscribed = some 1))).map (fun r => lower r.email) := by
    simp [getSubscribedUserEmails, querySubscribed, foldl_snoc]
  refine ⟨h0, ?_, ?_, ?_⟩
  · rw [h0, List.length_map, List.countP_eq_length_filter]
  · intro e he
    rw [h0] at he
    simp only [List.mem_map, List.mem_filter, decide_eq_true_eq] at he
    obtain ⟨r, ⟨hr, hs⟩, rfl⟩ := he
    exact ⟨r, hr, hs, rfl⟩
  · intro h
    rw [h0]
    simp only [List.map_eq_nil_iff, List.filter_eq_nil_iff, decide_eq_true_eq]
    exact h

theorem getSubscribedUserEmails_spec_witness :
    (∀ r ∈ ([⟨"a@b", "pw", none, some 0⟩] : Store), r.subscribed ≠ some 1) ∧
      getSubscribedUserEmails [⟨"a@b", "pw", none, some 0⟩] = [] :=
  ⟨by decide,
    (getSubscribedUserEmails_spec [⟨"a@b", "pw", none, some 0⟩]).2.2.2 (by decide)⟩

/-- C10: `setToken` keeps the number of rows and every row's email, password
and subscribed value; a row whose stored email differs from `user.Email` (byte
for byte) keeps its token; the table is unchanged when no stored email equals
`user.Email` and when the update is refused. -/
theorem setToken_frame (db : Store) (u : User) :
    (setToken db u).1.length = db.length ∧
      (∀ (i : Nat) (r : Row), db[i]? = some r →
        ∃ r1, (setToken db u).1[i]? = some r1 ∧ r1.email = r.email ∧
          r1.password = r.password ∧ r1.subscribed = r.subscribed ∧
          (r.email ≠ u.Email → r1.token = r.token)) ∧
      ((∀ r ∈ db, r.email ≠ u.Email) → (setToken db u).1 = db) ∧
      ((setToken db u).2 ≠ none → (setToken db u).1 = db) := by
  unfold setToken execUpdateToken
  split_ifs with hc
  · refine ⟨rfl, ?_, fun _ => rfl, fun _ => rfl⟩
    intro i r hr
    exact ⟨r, hr, rfl, rfl, rfl, fun _ => rfl⟩
  · refine ⟨by simp, ?_, ?_, ?_⟩
    · intro i r hr
      simp only [List.getElem?_map, hr, Option.map_some']
      by_cases he : r.email = u.Email
      · exact ⟨_, rfl, by simp [he], by simp [he], by simp [he], fun hne => absurd he hne⟩
      · exact ⟨_, rfl, by simp [he], by simp [he], by simp [he], fun _ => by simp [he]⟩
    · intro hno
      show List.map _ db = db
      conv_rhs => rw [← List.map_id db]
      apply List.map_congr_left
      intro r hr
      simp [hno r hr]
    · intro hne
      exact absurd rfl hne

theorem setToken_frame_witness :
    (∀ r ∈ ([⟨"a@b", "pw", some "t1", some 0⟩] : Store), r.email ≠ "A@B") ∧
      (setToken [⟨"a@b", "pw", some "t1", some 0⟩] ⟨"A@B", "pw", "t2"⟩).1
        = [⟨"a@b", "pw", some "t1", some 0⟩] :=
  ⟨by decide,
    (setToken_frame [⟨"a@b", "pw", some "t1", some 0⟩] ⟨"A@B", "pw", "t2"⟩).2.2.1 (by decide)⟩

/-- C9: when no row's lowercased email equals `lower user.Email`, `createUser`
succeeds: every lookup by an email with that lowercase form returns
`User{Email: lower user.Email, Password: user.Password}`, the previous rows are
all kept as they were (one row is appended after them), and the new row holds
no token, so `tokenExists` answers as before for every token. -/
theorem createUser_fresh (db : Store) (u : User)
    (h : ∀ r ∈ db, lower r.email ≠ lower u.Email) :
    (∀ e, lower e = lower u.Email →
        getUserByEmail (createUser db u).1 e = ⟨lower u.Email, u.Password, ""⟩) ∧
      (∃ row, (createUser db u).1 = db ++ [row] ∧ row.token = none) ∧
      (∀ t, tokenExists (createUser db u).1 t = tokenExists db t) ∧
      (createUser db u).2 = none := by
  have hpk : ∀ r ∈ db, r.email ≠ lower u.Email := by
    intro r hr he
    apply h r hr
    rw [he, lower_lower]
  rw [createUser_ok db u hpk]
  refine ⟨?_, ⟨_, rfl, rfl⟩, ?_, rfl⟩
  · intro e he
    have hnil : db.filter (fun r => decide (lower r.email = lower e)) = [] := by
      simp only [List.filter_eq_nil_iff, decide_eq_true_eq]
      intro r hr; rw [he]; exact h r hr
    rw [he] at hnil
    simp [getUserByEmail, queryByEmail, List.filter_append, hnil, he, lower_lower,
      getUserFromRows]
  · intro t
    cases hb : tokenExists db t with
    | true =>
      rw [tokenExists_iff] at hb ⊢
      obtain ⟨r, hr, ht⟩ := hb
      exact ⟨r, List.mem_append_left _ hr, ht⟩
    | false =>
      rw [tokenExists_false_iff] at hb ⊢
      intro r hr
      rcases List.mem_append.mp hr with h1 | h1
      · exact hb r h1
      · simp only [List.mem_singleton] at h1
        subst h1; simp

theorem createUser_fresh_witness :
    (∀ r ∈ ([⟨"a@b", "pw", some "t1", some 0⟩] : Store), lower r.email ≠ lower "C@D") ∧
      getUserByEmail (createUser [⟨"a@b", "pw", some "t1", some 0⟩] ⟨"C@D", "pw2", ""⟩).1 "c@D"
        = ⟨lower "C@D", "pw2", ""⟩ :=
  ⟨by decide,
    (createUser_fresh [⟨"a@b", "pw", some "t1", some 0⟩] ⟨"C@D", "pw2", ""⟩ (by decide)).1
      "c@D" (by decide)⟩

/-- C2: in every state of the store (every table reached from the empty one
through `createUser` and `setToken`), a `createUser` call whose lowercased email
equals the lowercased email of a row already in the table fails with a
primary-key error and leaves the table as it was: the existing row keeps its
email, password, token and subscribed value and no row is added. -/
theorem createUser_duplicate_refused (db : Store) (u : User) (h : Reachable db)
    (hdup : ∃ r ∈ db, lower r.email = lower u.Email) :
    (createUser db u).1 = db ∧ (createUser db u).2 = some SqlError.primaryKeyViolation := by
  obtain ⟨r, hr, he⟩ := hdup
  exact createUser_refused_of_stored_lower db u r hr (reachableBy_stored_lower _ db h r hr) he

theorem createUser_duplicate_refused_witness :
    Reachable (setToken (createUser [] ⟨"A@B", "pw", ""⟩).1 ⟨"a@b", "pw", "t1"⟩).1 ∧
      (setToken (createUser [] ⟨"A@B", "pw", ""⟩).1 ⟨"a@b", "pw", "t1"⟩).1
        = [⟨"a@b", "pw", some "t1", some 0⟩] ∧
      (createUser (setToken (createUser [] ⟨"A@B", "pw", ""⟩).1 ⟨"a@b", "pw", "t1"⟩).1
          ⟨"a@B", "other", ""⟩).1
        = (setToken (createUser [] ⟨"A@B", "pw", ""⟩).1 ⟨"a@b", "pw", "t1"⟩).1 ∧
      (createUser (setToken (createUser [] ⟨"A@B", "pw", ""⟩).1 ⟨"a@b", "pw", "t1"⟩).1
          ⟨"a@B", "other", ""⟩).2
        = some SqlError.primaryKeyViolation :=
  ⟨ReachableBy.assign _ _ trivial (ReachableBy.create _ _ ReachableBy.empty), by decide,
    createUser_duplicate_refused _ ⟨"a@B", "other", ""⟩
      (ReachableBy.assign _ _ trivial (ReachableBy.create _ _ ReachableBy.empty))
      ⟨⟨"a@b", "pw", some "t1", some 0⟩, by decide, by decide⟩⟩

/-- C4, as stated, fails: a user created with empty email and empty password
and then given a token is found by `tokenExists`, while `getUserByToken`
returns a value equal to the zero-valued `User{}` of a miss. -/
theorem tokenExists_counterexample :
    (setToken (createUser [] ⟨"", "", ""⟩).1 ⟨"", "", "t"⟩).1 = [⟨"", "", some "t", some 0⟩] ∧
      tokenExists [⟨"", "", some "t", some 0⟩] "t" = true ∧
      getUserByToken [⟨"", "", some "t", some 0⟩] "t" = User.zero := by
  decide

/-- C4 (amended): when no row holding the token `t` has both an empty email and
an empty password, `tokenExists t` is true exactly when `getUserByToken t` is
not the zero-valued `User{}`. -/
theorem tokenExists_iff_getUserByToken (db : Store) (t : String)
    (h : ∀ r ∈ db, r.token = some t → r.email ≠ "" ∨ r.password ≠ "") :
    tokenExists db t = true ↔ getUserByToken db t ≠ User.zero := by
  induction db with
  | nil => simp [tokenExists, queryTokenProbe, getUserByToken, queryByToken, getUserFromRows]
  | cons x xs ih =>
    have ih1 := ih (fun r hr => h r (List.mem_cons_of_mem _ hr))
    rw [getUserByToken_cons]
    by_cases hx : x.token = some t
    · have hne := h x (List.mem_cons_self _ _) hx
      have hex : tokenExists (x :: xs) t = true := by
        rw [tokenExists_iff]; exact ⟨x, List.mem_cons_self _ _, hx⟩
      simp only [hex, hx, if_true, true_iff]
      intro hz
      simp only [User.zero, User.mk.injEq, lower_eq_empty] at hz
      rcases hne with h1 | h1
      · exact h1 hz.1
      · exact h1 hz.2.1
    · have hex : tokenExists (x :: xs) t = tokenExists xs t := by
        simp [tokenExists, queryTokenProbe, hx]
      rw [hex, if_neg hx]
      exact ih1

theorem tokenExists_iff_getUserByToken_witness :
    tokenExists [⟨"a@b", "", some "t", some 0⟩] "t" = true
      ↔ getUserByToken [⟨"a@b", "", some "t", some 0⟩] "t" ≠ User.zero :=
  tokenExists_iff_getUserByToken [⟨"a@b", "", some "t", some 0⟩] "t" (by decide)

/-- C6: in every state reachable from the empty table through `createUser` and
`setToken`, at most one row holds a given non-empty token, so a token that
exists selects exactly one row, the one `getUserByToken` returns. -/
theorem token_unique_invariant (db : Store) (h : Reachable db) (t : String) (ht : t ≠ "") :
    (db.filter (fun r => decide (r.token = some t))).length ≤ 1 ∧
      (tokenExists db t = true →
        ∃ r, db.filter (fun r => decide (r.token = some t)) = [r] ∧
          getUserByToken db t = ⟨lower r.email, r.password, ""⟩) := by
  have _ := ht
  have hle := uniqueTokens_holders_le_one db t (reachableBy_constraints _ db h).2
  refine ⟨hle, ?_⟩
  intro hex
  rw [tokenExists_iff] at hex
  obtain ⟨r0, hr0, ht0⟩ := hex
  have hmem : r0 ∈ db.filter (fun r => decide (r.token = some t)) := by
    simp [List.mem_filter, hr0, ht0]
  match hl : db.filter (fun r => decide (r.token = some t)) with
  | [] => rw [hl] at hmem; simp at hmem
  | [r] =>
    refine ⟨r, hl, ?_⟩
    simp [getUserByToken, queryByToken, hl, getUserFromRows]
  | _ :: _ :: _ => rw [hl] at hle; simp at hle

theorem token_unique_invariant_witness :
    Reachable (setToken (createUser [] ⟨"A@B", "pw", ""⟩).1 ⟨"a@b", "pw", "t1"⟩).1 ∧
      "t1" ≠ "" ∧
      ((setToken (createUser [] ⟨"A@B", "pw", ""⟩).1 ⟨"a@b", "pw", "t1"⟩).1.filter
        (fun r => decide (r.token = some "t1"))).length ≤ 1 :=
  ⟨ReachableBy.assign _ _ trivial (ReachableBy.create _ _ ReachableBy.empty), by decide,
    (token_unique_invariant _
      (ReachableBy.assign _ _ trivial (ReachableBy.create _ _ ReachableBy.empty))
      "t1" (by decide)).1⟩

/-- C5, as stated, fails: `setToken` stores whatever `user.Token` holds, the
empty string included (the value the field has in a `User` built without a
token); the empty token then matches that row. -/
theorem empty_token_counterexample :
    Reachable (setToken (createUser [] ⟨"a@b", "pw", ""⟩).1 ⟨"a@b", "pw", ""⟩).1 ∧
      tokenExists (setToken (createUser [] ⟨"a@b", "pw", ""⟩).1 ⟨"a@b", "pw", ""⟩).1 "" = true ∧
      getUserByToken (setToken (createUser [] ⟨"a@b", "pw", ""⟩).1 ⟨"a@b", "pw", ""⟩).1 ""
        = ⟨"a@b", "pw", ""⟩ ∧
      getUserByToken (setToken (createUser [] ⟨"a@b", "pw", ""⟩).1 ⟨"a@b", "pw", ""⟩).1 ""
        ≠ User.zero :=
  ⟨ReachableBy.assign _ _ trivial (ReachableBy.create _ _ ReachableBy.empty),
    by decide, by decide, by decide⟩

/-- C5 (amended): in every state reachable from the empty table through
`createUser` calls and `setToken` calls whose `Token` is not empty, the empty
token matches no row: `getUserByToken ""` is the zero-valued `User{}` and
`tokenExists ""` is false. -/
theorem empty_token_never_matches (db : Store)
    (h : ReachableBy (fun user => user.Token ≠ "") db) :
    getUserByToken db "" = User.zero ∧ tokenExists db "" = false := by
  have hinv : ∀ r ∈ db, r.token ≠ some "" := by
    induction h with
    | empty => intro r hr; simp at hr
    | create db u _ ih =>
      intro r hr
      rcases mem_createUser db u r hr with h1 | h1
      · exact ih r h1
      · rw [h1]; simp
    | assign db u hok _ ih =>
      intro r hr
      rcases mem_setToken db u r hr with h1 | h1
      · exact ih r h1
      · rw [h1]
        intro hh
        exact hok (Option.some.inj hh)
  exact ⟨getUserByToken_zero_of_absent db "" hinv, (tokenExists_false_iff db "").mpr hinv⟩

theorem empty_token_never_matches_witness :
    getUserByToken (setToken (createUser [] ⟨"a@b", "pw", ""⟩).1 ⟨"a@b", "pw", "t1"⟩).1 ""
        = User.zero ∧
      tokenExists (setToken (createUser [] ⟨"a@b", "pw", ""⟩).1 ⟨"a@b", "pw", "t1"⟩).1 ""
        = false :=
  empty_token_never_matches _
    (ReachableBy.assign _ _ (by decide) (ReachableBy.create _ _ ReachableBy.empty))

/-- C1, as stated, fails in two ways: a token that another row holds is refused
by the unique constraint, so the lookup by it still returns the other user and
not the one the token was set for; and setting again the token the user
already holds leaves the old token pointing at the user. -/
theorem setToken_counterexample :
    PrimaryKey [⟨"c@d", "pc", some "tc", some 0⟩, ⟨"a@b", "pa", some "ta", some 0⟩] ∧
      UniqueTokens [⟨"c@d", "pc", some "tc", some 0⟩, ⟨"a@b", "pa", some "ta", some 0⟩] ∧
      (setToken [⟨"c@d", "pc", some "tc", some 0⟩, ⟨"a@b", "pa", some "ta", some 0⟩]
          ⟨"a@b", "pa", "tc"⟩).2 = some SqlError.uniqueViolation ∧
      getUserByToken
          (setToken [⟨"c@d", "pc", some "tc", some 0⟩, ⟨"a@b", "pa", some "ta", some 0⟩]
            ⟨"a@b", "pa", "tc"⟩).1 "tc" = ⟨"c@d", "pc", ""⟩ ∧
      getUserByToken
          (setToken [⟨"c@d", "pc", some "tc", some 0⟩, ⟨"a@b", "pa", some "ta", some 0⟩]
            ⟨"a@b", "pa", "tc"⟩).1 "tc" ≠ ⟨"a@b", "pa", ""⟩ ∧
      getUserByToken
          (setToken [⟨"c@d", "pc", some "tc", some 0⟩, ⟨"a@b", "pa", some "ta", some 0⟩]
            ⟨"a@b", "pa", "ta"⟩).1 "ta" = ⟨"a@b", "pa", ""⟩ := by
  decide

/-- C1 (amended): on a table that satisfies its constraints, for a user whose
email and password are those of a stored row and a token `t` that no other row
holds, after `setToken` (user with `Token = t`) the lookup `getUserByToken t`
returns the user's lowercased email and password, and the lookup by the token
the user held before, when that one is not empty and differs from `t`, finds
no row. -/
theorem setToken_then_getUserByToken (db : Store) (u : User) (t : String) (r : Row)
    (hpk : PrimaryKey db) (hut : UniqueTokens db)
    (hr : r ∈ db) (he : r.email = u.Email) (hp : r.password = u.Password)
    (hfree : ∀ a ∈ db, a.email ≠ u.Email → a.token ≠ some t) :
    getUserByToken (setToken db { u with Token := t }).1 t = ⟨lower u.Email, u.Password, ""⟩ ∧
      tokenExists (setToken db { u with Token := t }).1 t = true ∧
      (∀ told, r.token = some told → told ≠ "" → told ≠ t →
        getUserByToken (setToken db { u with Token := t }).1 told = User.zero ∧
          tokenExists (setToken db { u with Token := t }).1 told = false) := by
  have hdb : (setToken db { u with Token := t }).1
      = db.map (fun a => if a.email = u.Email then { a with token := some t } else a) := by
    rcases setToken_cases db { u with Token := t } with hc | ⟨_, hc⟩
    · exfalso
      have hne : (setToken db { u with Token := t }).2 = none := by
        unfold setToken execUpdateToken
        have hany : db.any (fun a => decide (a.email ≠ u.Email) && decide (a.token = some t))
            = false := by
          simp only [List.any_eq_false, Bool.and_eq_true, decide_eq_true_eq, not_and]
          exact hfree
        rw [hany, Bool.and_false]
        rfl
      rw [hc] at hne
      simp at hne
    · rw [hc]
  have hhold := holders_after_update db u.Email t r hpk hr he hfree
  rw [hdb]
  refine ⟨?_, ?_, ?_⟩
  · simp [getUserByToken, queryByToken, hhold, getUserFromRows, he, hp]
  · rw [tokenExists_iff]
    refine ⟨{ r with token := some t }, ?_, rfl⟩
    have : { r with token := some t } ∈ [{ r with token := some t }] := List.mem_singleton.mpr rfl
    rw [← hhold] at this
    exact (List.mem_filter.mp this).1
  · intro told hold _ hdiff
    have habs : ∀ b ∈ db.map (fun a => if a.email = u.Email then { a with token := some t } else a),
        b.token ≠ some told := by
      intro b hb
      simp only [List.mem_map] at hb
      obtain ⟨a, ha, rfl⟩ := hb
      by_cases hae : a.email = u.Email
      · simp only [hae, if_true]
        intro hh
        exact hdiff (Option.some.inj hh).symm
      · simp only [hae, if_false]
        have hra : r ≠ a := fun hh => hae (hh ▸ he)
        exact uniqueTokens_distinct db hut r a hr ha hra told hold
    exact ⟨getUserByToken_zero_of_absent _ told habs, (tokenExists_false_iff _ told).mpr habs⟩

theorem setToken_then_getUserByToken_witness :
    getUserByToken
        (setToken [⟨"a@b", "pa", some "ta", some 0⟩, ⟨"c@d", "pc", some "tc", some 0⟩]
          { (⟨"a@b", "pa", "ta"⟩ : User) with Token := "tn" }).1 "tn"
        = ⟨lower "a@b", "pa", ""⟩ ∧
      getUserByToken
        (setToken [⟨"a@b", "pa", some "ta", some 0⟩, ⟨"c@d", "pc", some "tc", some 0⟩]
          { (⟨"a@b", "pa", "ta"⟩ : User) with Token := "tn" }).1 "ta"
        = User.zero :=
  ⟨(setToken_then_getUserByToken
      [⟨"a@b", "pa", some "ta", some 0⟩, ⟨"c@d", "pc", some "tc", some 0⟩]
      ⟨"a@b", "pa", "ta"⟩ "tn" ⟨"a@b", "pa", some "ta", some 0⟩
      (by decide) (by decide) (by decide) (by decide) (by decide) (by decide)).1,
    ((setToken_then_getUserByToken
      [⟨"a@b", "pa", some "ta", some 0⟩, ⟨"c@d", "pc", some "tc", some 0⟩]
      ⟨"a@b", "pa", "ta"⟩ "tn" ⟨"a@b", "pa", some "ta", some 0⟩
      (by decide) (by decide) (by decide) (by decide) (by decide) (by decide)).2.2
      "ta" (by decide) (by decide) (by decide)).1⟩

end GarageOpener
